import Mathlib

/-!
Verification of the package-manager front-end (`src/main.rs`).

Shallow embedding conventions:

* A filesystem path is a list of components (from the root); `parentDir`
  of a non-empty path drops the last component, the empty path (the root)
  has no parent — matching the standard library's path parent operation.
* The filesystem is a pair of oracles: `listing` models `fs::read_dir`
  (`none` = the listing itself fails; an inner `none` entry models a
  `DirEntry` whose read fails, i.e. `entry.ok()?`), and `manifest` models,
  for a directory `d`, the observable outcome of `d.join("package.json")`:
  `none` = the file does not exist, `readError` = it exists but
  `fs::read_to_string` fails, `parseError` = `serde_json::from_str` fails,
  `json v` = it parses to the value `v`.  JSON values are modelled just as
  deeply as the code inspects them: an object with ordered fields, or
  anything else.
* `SkimMatcherV2.fuzzy_match` comes from the external `fuzzy_matcher`
  crate; it is modelled as an abstract score oracle
  `Matcher = String → String → Option Int` and every theorem about the
  scan structure is proved for (or refuted by) such oracles.
* Machine integers: scores are `i64`, modelled as `Int` (no overflow is
  reachable: fuzzy scores are oracle inputs, edit scores lie in `[0,100]`).
  The `f64` computation `(1.0 - dist/max_len) * 100.0` truncated `as i64`
  is modelled by exact natural arithmetic `(100 * (maxLen - dist)) / maxLen`
  and the comparison `similarity_ratio > 0.75` by `4 * dist < maxLen`;
  these coincide with the IEEE-754 evaluation for all operand sizes the
  program can encounter (checked exhaustively far beyond realistic string
  lengths), and the computed distance never exceeds `maxLen`.
* `String::to_lowercase` is modelled by ASCII `Char.toLower`; no claim
  depends on non-ASCII lowercasing.
-/

/-- A filesystem path: its components from the root.  The root is `[]`. -/
abbrev FsPath := List String

/-- The path parent operation: drop the last component; the root has none. -/
def parentDir : FsPath → Option FsPath
  | [] => none
  | l => some l.dropLast

/-- The ancestor `k` levels above `dir` (saturating at the root). -/
def ancestorAt (dir : FsPath) (k : Nat) : FsPath :=
  dir.take (dir.length - k)

/-- One directory entry as the walker observes it: a base name and the
`path.is_file()` flag. -/
structure DirEntry where
  name : String
  isFile : Bool
deriving DecidableEq

/-- A JSON value, as deeply as `main.rs` inspects one: an object with an
ordered field list, or any other value. -/
inductive JsonValue where
  | obj (fields : List (String × JsonValue))
  | other

/-- The observable outcome of probing `dir/package.json`. -/
inductive ManifestContent where
  | readError
  | parseError
  | json (v : JsonValue)

/-- The filesystem, as the two oracles the program consults. -/
structure FS where
  listing : FsPath → Option (List (Option DirEntry))
  manifest : FsPath → Option ManifestContent

/-- `serde_json::Value::get`: field lookup on an object, `None` otherwise. -/
def jsonGet (v : JsonValue) (key : String) : Option JsonValue :=
  match v with
  | .obj fields => (fields.find? (fun kv => kv.1 == key)).map (·.2)
  | .other => none

/-- `serde_json::Value::as_object`. -/
def asObject : JsonValue → Option (List (String × JsonValue))
  | .obj fields => some fields
  | .other => none

/-- `check_directory_for_package_manager`'s entry loop: `entry.ok()?`
aborts the whole check with `None` on a failed entry; a file entry is
tested against the four lock-file markers in source order. -/
def checkEntries : List (Option DirEntry) → Option String
  | [] => none
  | none :: _ => none
  | some e :: rest =>
    if e.isFile then
      if e.name = "package-lock.json" then some "npm"
      else if e.name = "yarn.lock" then some "yarn"
      else if e.name = "bun.lockb" ∨ e.name = "bun.lock" then some "bun"
      else if e.name = "pnpm-lock.yaml" then some "pnpm"
      else checkEntries rest
    else checkEntries rest

/-- `check_directory_for_package_manager`: `fs::read_dir(dir).ok()?` turns
a listing failure into `None`. -/
def checkDirectoryForPackageManager (fs : FS) (dir : FsPath) : Option String :=
  match fs.listing dir with
  | none => none
  | some entries => checkEntries entries

/-- The `for _ in 0..=5` loop of `detect_package_manager`, as fuel
recursion: check the current directory, then move to the parent or stop. -/
def detectGo (fs : FS) : Nat → FsPath → Option String
  | 0, _ => none
  | fuel + 1, d =>
    match checkDirectoryForPackageManager fs d with
    | some m => some m
    | none =>
      match parentDir d with
      | some p => detectGo fs fuel p
      | none => none

/-- `detect_package_manager`: the starting directory plus up to five
ancestors (six checks). -/
def detectPackageManager (fs : FS) (dir : FsPath) : Option String :=
  detectGo fs 6 dir

/-- The `for _ in 0..=5` loop of `read_package_json_scripts`. -/
def readGo (fs : FS) : Nat → FsPath → Except Unit (List String)
  | 0, _ => .ok []
  | fuel + 1, d =>
    match fs.manifest d with
    | some .readError => .error ()
    | some .parseError => .error ()
    | some (.json v) =>
      match jsonGet v "scripts" with
      | some sv =>
        match asObject sv with
        | some fields => .ok (fields.map Prod.fst)
        | none => .ok []
      | none => .ok []
    | none =>
      match parentDir d with
      | some p => readGo fs fuel p
      | none => .ok []

/-- `read_package_json_scripts`: the `?` operators propagate read and
parse failures as `Err`; a found manifest always terminates the walk. -/
def readPackageJsonScripts (fs : FS) (dir : FsPath) : Except Unit (List String) :=
  readGo fs 6 dir

/-- `patch_npm_command` (the Rust `match` on string literals, written as
the equivalent chain of equality tests). -/
def patchNpmCommand (cmd : String) : List String :=
  if cmd = "i" then ["install"]
  else if cmd = "a" then ["install"]
  else if cmd = "r" then ["uninstall"]
  else if cmd = "rm" then ["uninstall"]
  else if cmd = "d" then ["run", "dev"]
  else if cmd = "dev" then ["run", "dev"]
  else if cmd = "b" then ["run", "build"]
  else if cmd = "build" then ["run", "build"]
  else if cmd = "s" then ["start"]
  else if cmd = "t" then ["test"]
  else if cmd = "up" then ["update"]
  else if cmd = "ls" then ["list"]
  else [cmd]

/-- `patch_yarn_command`. -/
def patchYarnCommand (cmd : String) : List String :=
  if cmd = "i" then ["install"]
  else if cmd = "a" then ["add"]
  else if cmd = "r" then ["remove"]
  else if cmd = "rm" then ["remove"]
  else if cmd = "d" then ["dev"]
  else if cmd = "b" then ["build"]
  else if cmd = "s" then ["start"]
  else if cmd = "t" then ["test"]
  else if cmd = "up" then ["upgrade"]
  else if cmd = "ls" then ["list"]
  else [cmd]

/-- `patch_pnpm_command`. -/
def patchPnpmCommand (cmd : String) : List String :=
  if cmd = "i" then ["install"]
  else if cmd = "a" then ["add"]
  else if cmd = "r" then ["remove"]
  else if cmd = "rm" then ["remove"]
  else if cmd = "d" then ["run", "dev"]
  else if cmd = "dev" then ["run", "dev"]
  else if cmd = "b" then ["run", "build"]
  else if cmd = "build" then ["run", "build"]
  else if cmd = "s" then ["start"]
  else if cmd = "t" then ["test"]
  else if cmd = "up" then ["update"]
  else if cmd = "ls" then ["list"]
  else [cmd]

/-- `patch_bun_command`. -/
def patchBunCommand (cmd : String) : List String :=
  if cmd = "i" then ["install"]
  else if cmd = "a" then ["add"]
  else if cmd = "r" then ["remove"]
  else if cmd = "rm" then ["remove"]
  else if cmd = "d" then ["run", "dev"]
  else if cmd = "dev" then ["run", "dev"]
  else if cmd = "b" then ["run", "build"]
  else if cmd = "build" then ["run", "build"]
  else if cmd = "s" then ["start"]
  else if cmd = "t" then ["test"]
  else if cmd = "up" then ["update"]
  else if cmd = "ls" then ["list"]
  else [cmd]

/-- The `match manager` dispatch inside `patch_commands`. -/
def applyPatch (manager cmd : String) : List String :=
  if manager = "npm" then patchNpmCommand cmd
  else if manager = "yarn" then patchYarnCommand cmd
  else if manager = "pnpm" then patchPnpmCommand cmd
  else if manager = "bun" then patchBunCommand cmd
  else [cmd]

/-- The per-manager `known_commands` vectors of `try_autocorrect_script`. -/
def knownCommands (manager : String) : List String :=
  if manager = "npm" then
    ["install", "i", "uninstall", "r", "rm", "start", "s", "test", "t",
     "update", "up", "list", "ls", "init", "publish", "pack", "version", "audit"]
  else if manager = "yarn" then
    ["install", "i", "add", "a", "remove", "rm", "start", "s", "test", "t",
     "upgrade", "up", "list", "ls", "init", "publish", "pack", "version", "audit"]
  else if manager = "pnpm" then
    ["install", "i", "add", "a", "remove", "rm", "start", "s", "test", "t",
     "update", "up", "list", "ls", "init", "publish", "pack", "version", "audit"]
  else if manager = "bun" then
    ["install", "i", "add", "a", "remove", "rm", "start", "s", "test", "t",
     "update", "up", "list", "ls", "init", "publish", "pack", "version", "audit"]
  else []

/-- Normalization in `find_similar_command`: removing every `-` and `_`
(`str::replace` with an empty replacement) and lowercasing. -/
def normalizeToken (s : String) : String :=
  String.mk (((s.data.filter (fun c => !(c == '-' || c == '_')))).map Char.toLower)

/-- A cell read from the DP matrix (out-of-range reads the initial 0). -/
def getMat (m : List (List Nat)) (i j : Nat) : Nat :=
  (m.getD i []).getD j 0

/-- A cell write into the DP matrix (all source writes are in range). -/
def setMat (m : List (List Nat)) (i j v : Nat) : List (List Nat) :=
  m.set i ((m.getD i []).set j v)

/-- `levenshtein_distance` exactly as written in the source: the matrix is
sized and the final cell is read by **byte** lengths (`str::len`), while
the fill loops enumerate **chars** — so the two agree only on ASCII
input. -/
def levenshteinDistance (s1 s2 : String) : Nat :=
  let len1 := s1.utf8ByteSize
  let len2 := s2.utf8ByteSize
  let m0 : List (List Nat) := List.replicate (len1 + 1) (List.replicate (len2 + 1) 0)
  let m1 := (List.range (len1 + 1)).foldl (fun m i => setMat m i 0 i) m0
  let m2 := (List.range (len2 + 1)).foldl (fun m j => setMat m 0 j j) m1
  let m3 := s1.data.enum.foldl (fun m ic =>
    s2.data.enum.foldl (fun m jc =>
      let cost : Nat := if ic.2 = jc.2 then 0 else 1
      setMat m (ic.1 + 1) (jc.1 + 1)
        (Nat.min (Nat.min (getMat m ic.1 (jc.1 + 1) + 1) (getMat m (ic.1 + 1) jc.1 + 1))
          (getMat m ic.1 jc.1 + cost))) m) m2
  getMat m3 len1 len2

/-- Modelled from the spec: the Levenshtein edit distance between two
character sequences (the quantity §4.4 step 4 says the fallback computes)
— Mathlib's Levenshtein distance with unit insert/delete/substitute
costs, for comparison with the source's `levenshteinDistance`. -/
def specLevenshtein (xs ys : List Char) : Nat :=
  levenshtein Levenshtein.defaultCost xs ys

/-- The external `SkimMatcherV2.fuzzy_match`, as an abstract score oracle:
`mat haystack needle` is `some score` or `none`. -/
abbrev Matcher := String → String → Option Int

/-- The mutable scan state of `find_similar_command`:
`(best_match, best_score)`. -/
structure ScanState where
  bestMatch : Option (String × Int)
  bestScore : Int

/-- The six strategy scores computed for one candidate, in source order. -/
def candidateScores (mat : Matcher) (input command : String) : List (Option Int) :=
  let normalizedInput := normalizeToken input
  let normalizedCommand := normalizeToken command
  [mat command input,
   mat input command,
   mat normalizedCommand normalizedInput,
   mat normalizedInput normalizedCommand,
   mat normalizedInput command,
   mat input normalizedCommand]

/-- The body of the `for score_opt in scores` loop: adopt a strategy
score exactly when it beats the running best. -/
def fuzzyStep (command : String) (st : ScanState) (so : Option Int) : ScanState :=
  match so with
  | some s => if s > st.bestScore then ⟨some (command, s), s⟩ else st
  | none => st

/-- The `for score_opt in scores` loop. -/
def foldFuzzy (command : String) (st : ScanState) (scores : List (Option Int)) : ScanState :=
  scores.foldl (fuzzyStep command) st

/-- The scan state after folding one candidate's six fuzzy scores. -/
def afterFuzzy (mat : Matcher) (input : String) (st : ScanState) (command : String) : ScanState :=
  foldFuzzy command st (candidateScores mat input command)

/-- The guard `best_match.is_none() || best_score < 50` in front of the
edit-distance fallback. -/
def fallbackCond (st : ScanState) : Bool :=
  st.bestMatch.isNone || decide (st.bestScore < 50)

/-- The edit-distance fallback body: the normalized edit distance is
turned into a score and adopted when it beats the running best, the
similarity ratio exceeds 0.75 and the raw distance is at most 3. -/
def applyFallback (input command : String) (st : ScanState) : ScanState :=
  let normalizedInput := normalizeToken input
  let normalizedCommand := normalizeToken command
  let editDist := levenshteinDistance normalizedInput normalizedCommand
  let maxLen := Nat.max normalizedInput.utf8ByteSize normalizedCommand.utf8ByteSize
  if maxLen > 0 then
    let editScore : Int := ((100 * (maxLen - editDist)) / maxLen : Nat)
    if editScore > st.bestScore ∧ 4 * editDist < maxLen ∧ editDist ≤ 3 then
      ⟨some (command, editScore), editScore⟩
    else st
  else st

/-- One iteration of `for command in available_commands`: fold the six
fuzzy scores, then run the fallback under its guard. -/
def scanStep (mat : Matcher) (input : String) (st : ScanState) (command : String) : ScanState :=
  let st1 := afterFuzzy mat input st command
  if fallbackCond st1 then applyFallback input command st1 else st1

/-- `find_similar_command`: scan every candidate, then answer only when
the best score exceeds 60. -/
def findSimilarCommand (mat : Matcher) (input : String)
    (availableCommands : List String) : Option (String × Int) :=
  let st := availableCommands.foldl (scanStep mat input) ⟨none, 0⟩
  if st.bestScore > 60 then st.bestMatch else none

/-- The scan state just before candidate `i` is processed. -/
def scanStateBefore (mat : Matcher) (input : String)
    (commands : List String) (i : Nat) : ScanState :=
  (commands.take i).foldl (scanStep mat input) ⟨none, 0⟩

/-- Whether the edit-distance fallback body is executed for candidate `i`
of the scan: the guard evaluated after candidate `i`'s fuzzy scores are
folded into the running state. -/
def fallbackRuns (mat : Matcher) (input : String)
    (commands : List String) (i : Nat) : Bool :=
  fallbackCond (afterFuzzy mat input (scanStateBefore mat input commands i) (commands.getD i ""))

/-- `autocorrect_command`: exact membership wins, then the fuzzy scan;
an error from the manifest reader or an empty set leaves `cmd` alone. -/
def autocorrectCommand (mat : Matcher) (fs : FS) (cmd : String) (dir : FsPath) : String :=
  match readPackageJsonScripts fs dir with
  | .ok scripts =>
    if scripts = [] then cmd
    else if cmd ∈ scripts then cmd
    else
      match findSimilarCommand mat cmd scripts with
      | some (suggested, _) => suggested
      | none => cmd
  | .error _ => cmd

/-- `try_autocorrect_script`: skip autocorrect for the manager's known
commands, otherwise delegate to `autocorrect_command`. -/
def tryAutocorrectScript (mat : Matcher) (fs : FS) (manager cmd : String)
    (dir : FsPath) : String :=
  if cmd ∈ knownCommands manager then cmd else autocorrectCommand mat fs cmd dir

/-- `patch_commands`: autocorrect the leading token, patch it through the
manager's table, then append the remaining arguments untouched. -/
def patchCommands (mat : Matcher) (fs : FS) (manager : String)
    (args : List String) (dir : FsPath) : List String :=
  match args with
  | [] => []
  | first :: rest =>
    applyPatch manager (tryAutocorrectScript mat fs manager first dir) ++ rest

/-- The basic well-formedness of the scan state: the running best score
never drops below its initial 0, and a positive best score means a best
match has been recorded. -/
def GoodState (st : ScanState) : Prop :=
  0 ≤ st.bestScore ∧ (0 < st.bestScore → st.bestMatch.isSome)

/-- Whether one strategy outcome is a strong (≥ 50) score. -/
def strongScore (so : Option Int) : Bool :=
  match so with
  | some v => decide (50 ≤ v)
  | none => false

/-- The recorded best match always carries the current best score and a
command drawn from `full`. -/
def MatchInv (full : List String) (st : ScanState) : Prop :=
  ∀ c s, st.bestMatch = some (c, s) → c ∈ full ∧ st.bestScore = s

/-- The keys of each manager's §4.2 patch table (every `match` arm other
than the catch-all), read off the source tables. -/
def patchTableKeys (manager : String) : List String :=
  if manager = "npm" then
    ["i", "a", "r", "rm", "d", "dev", "b", "build", "s", "t", "up", "ls"]
  else if manager = "yarn" then
    ["i", "a", "r", "rm", "d", "b", "s", "t", "up", "ls"]
  else if manager = "pnpm" then
    ["i", "a", "r", "rm", "d", "dev", "b", "build", "s", "t", "up", "ls"]
  else if manager = "bun" then
    ["i", "a", "r", "rm", "d", "dev", "b", "build", "s", "t", "up", "ls"]
  else []

/-- Each manager's canonical verbs: the leading tokens of its patch
table's outputs. -/
def canonicalVerbs (manager : String) : List String :=
  if manager = "npm" then
    ["install", "uninstall", "run", "start", "test", "update", "list"]
  else if manager = "yarn" then
    ["install", "add", "remove", "dev", "build", "start", "test", "upgrade", "list"]
  else if manager = "pnpm" then
    ["install", "add", "remove", "run", "start", "test", "update", "list"]
  else if manager = "bun" then
    ["install", "add", "remove", "run", "start", "test", "update", "list"]
  else []

/-- A score oracle that never matches: every strategy yields `none`, so
the scan is driven entirely by the edit-distance fallback. -/
def noneMat : Matcher := fun _ _ => none

/-- A score oracle giving the haystack `"a"` a strong score (80) and
everything else no score. -/
def strongAMat : Matcher := fun h _ => if h = "a" then some 80 else none

/-- A filesystem whose every directory lists nothing and has no manifest. -/
def emptyFS : FS := { listing := fun _ => none, manifest := fun _ => none }

/-- A filesystem whose root manifest declares the single script `buildx`. -/
def buildxFS : FS :=
  { listing := fun _ => none,
    manifest := fun p =>
      if p = [] then some (.json (.obj [("scripts", .obj [("buildx", .other)])]))
      else none }

/-- A filesystem whose root manifest declares the single script `dev`. -/
def devFS : FS :=
  { listing := fun _ => none,
    manifest := fun p =>
      if p = [] then some (.json (.obj [("scripts", .obj [("dev", .other)])]))
      else none }

/-- A filesystem whose root manifest exists but fails to parse. -/
def parseErrFS : FS := { listing := fun _ => none, manifest := fun _ => some .parseError }

/-- A filesystem with a `yarn.lock` marker in directory `[a]` and an
empty listing in `[a, b]`. -/
def yarnAtAFS : FS :=
  { listing := fun p =>
      if p = ["a"] then some [some ⟨"yarn.lock", true⟩]
      else if p = ["a", "b"] then some []
      else none,
    manifest := fun _ => none }

/-! ### Lemmas about the bounded ancestor walk -/

theorem ancestorAt_zero (d : FsPath) : ancestorAt d 0 = d := by
  simp [ancestorAt]

theorem ancestorAt_dropLast (d : FsPath) (k : Nat) :
    ancestorAt d.dropLast k = ancestorAt d (k + 1) := by
  simp only [ancestorAt, List.dropLast_eq_take, List.length_take, List.take_take]
  congr 1
  omega

theorem parentDir_of_ne_nil (d : FsPath) (h : d ≠ []) : parentDir d = some d.dropLast := by
  cases d with
  | nil => exact absurd rfl h
  | cons a l => rfl

theorem detectGo_succ (fs : FS) (n : Nat) (d : FsPath) :
    detectGo fs (n + 1) d =
      match checkDirectoryForPackageManager fs d with
      | some m => some m
      | none =>
        match parentDir d with
        | some p => detectGo fs n p
        | none => none := rfl

theorem detectGo_none (fs : FS) :
    ∀ (fuel : Nat) (d : FsPath),
      (∀ k, k < fuel → checkDirectoryForPackageManager fs (ancestorAt d k) = none) →
      detectGo fs fuel d = none := by
  intro fuel
  induction fuel with
  | zero => intro d _; rfl
  | succ n ih =>
    intro d h
    rw [detectGo_succ]
    have h0 := h 0 (Nat.succ_pos n)
    rw [ancestorAt_zero] at h0
    rw [h0]
    cases hd : parentDir d with
    | none => rfl
    | some p =>
      have hne : d ≠ [] := by
        intro hnil; subst hnil; simp [parentDir] at hd
      rw [parentDir_of_ne_nil d hne] at hd
      cases hd
      exact ih d.dropLast (fun k hk => by
        rw [ancestorAt_dropLast]
        exact h (k + 1) (Nat.succ_lt_succ hk))

theorem detectGo_found (fs : FS) (m : String) :
    ∀ (N fuel : Nat) (d : FsPath), N < fuel → N ≤ d.length →
      (∀ k, k < N → checkDirectoryForPackageManager fs (ancestorAt d k) = none) →
      checkDirectoryForPackageManager fs (ancestorAt d N) = some m →
      detectGo fs fuel d = some m := by
  intro N
  induction N with
  | zero =>
    intro fuel d hf _ _ hfound
    rw [ancestorAt_zero] at hfound
    cases fuel with
    | zero => omega
    | succ n => rw [detectGo_succ, hfound]
  | succ N ih =>
    intro fuel d hf hlen hnone hfound
    cases fuel with
    | zero => omega
    | succ f =>
      rw [detectGo_succ]
      have h0 := hnone 0 (Nat.succ_pos N)
      rw [ancestorAt_zero] at h0
      rw [h0]
      have hne : d ≠ [] := by
        intro hnil; subst hnil; simp at hlen
      rw [parentDir_of_ne_nil d hne]
      exact ih f d.dropLast (by omega)
        (by rw [List.length_dropLast]; omega)
        (fun k hk => by
          rw [ancestorAt_dropLast]
          exact hnone (k + 1) (Nat.succ_lt_succ hk))
        (by rw [ancestorAt_dropLast]; exact hfound)

theorem detectGo_congr (fs fs2 : FS)
    (h : ∀ p, checkDirectoryForPackageManager fs p = checkDirectoryForPackageManager fs2 p) :
    ∀ (fuel : Nat) (d : FsPath), detectGo fs fuel d = detectGo fs2 fuel d := by
  intro fuel
  induction fuel with
  | zero => intro d; rfl
  | succ n ih =>
    intro d
    rw [detectGo_succ, detectGo_succ, h d]
    cases checkDirectoryForPackageManager fs2 d with
    | some m => rfl
    | none =>
      cases parentDir d with
      | some p => exact ih p
      | none => rfl

theorem readGo_succ (fs : FS) (n : Nat) (d : FsPath) :
    readGo fs (n + 1) d =
      match fs.manifest d with
      | some .readError => .error ()
      | some .parseError => .error ()
      | some (.json v) =>
        match jsonGet v "scripts" with
        | some sv =>
          match asObject sv with
          | some fields => .ok (fields.map Prod.fst)
          | none => .ok []
        | none => .ok []
      | none =>
        match parentDir d with
        | some p => readGo fs n p
        | none => .ok [] := rfl

theorem readGo_none (fs : FS) :
    ∀ (fuel : Nat) (d : FsPath),
      (∀ k, k < fuel → fs.manifest (ancestorAt d k) = none) →
      readGo fs fuel d = .ok [] := by
  intro fuel
  induction fuel with
  | zero => intro d _; rfl
  | succ n ih =>
    intro d h
    rw [readGo_succ]
    have h0 := h 0 (Nat.succ_pos n)
    rw [ancestorAt_zero] at h0
    rw [h0]
    cases hd : parentDir d with
    | none => rfl
    | some p =>
      have hne : d ≠ [] := by
        intro hnil; subst hnil; simp [parentDir] at hd
      rw [parentDir_of_ne_nil d hne] at hd
      cases hd
      exact ih d.dropLast (fun k hk => by
        rw [ancestorAt_dropLast]
        exact h (k + 1) (Nat.succ_lt_succ hk))

theorem readPackageJsonScripts_def (fs : FS) (dir : FsPath) :
    readPackageJsonScripts fs dir = readGo fs (5 + 1) dir := rfl

/-! ### Lemmas about the fuzzy scan state -/

theorem goodState_init : GoodState ⟨none, 0⟩ :=
  ⟨le_refl 0, fun h => absurd h (lt_irrefl 0)⟩

theorem fuzzyStep_score_le (c : String) (st : ScanState) (so : Option Int) :
    st.bestScore ≤ (fuzzyStep c st so).bestScore := by
  cases so with
  | none => exact le_refl _
  | some s =>
    by_cases h : s > st.bestScore
    · simp only [fuzzyStep, if_pos h]
      exact le_of_lt h
    · simp only [fuzzyStep, if_neg h]
      exact le_refl _

theorem fuzzyStep_isSome (c : String) (st : ScanState) (so : Option Int)
    (h : st.bestMatch.isSome) : (fuzzyStep c st so).bestMatch.isSome := by
  cases so with
  | none => exact h
  | some s =>
    by_cases hs : s > st.bestScore
    · simp [fuzzyStep, if_pos hs]
    · simp only [fuzzyStep, if_neg hs]; exact h

theorem fuzzyStep_good (c : String) (st : ScanState) (so : Option Int)
    (h : GoodState st) : GoodState (fuzzyStep c st so) := by
  cases so with
  | none => exact h
  | some s =>
    by_cases hs : s > st.bestScore
    · simp only [fuzzyStep, if_pos hs]
      exact ⟨le_trans h.1 (le_of_lt hs), fun _ => rfl⟩
    · simp only [fuzzyStep, if_neg hs]; exact h

theorem foldFuzzy_score_le (c : String) (scores : List (Option Int)) :
    ∀ st : ScanState, st.bestScore ≤ (foldFuzzy c st scores).bestScore := by
  induction scores with
  | nil => intro st; exact le_refl _
  | cons so rest ih =>
    intro st
    exact le_trans (fuzzyStep_score_le c st so) (ih (fuzzyStep c st so))

theorem foldFuzzy_isSome (c : String) (scores : List (Option Int)) :
    ∀ st : ScanState, st.bestMatch.isSome → (foldFuzzy c st scores).bestMatch.isSome := by
  induction scores with
  | nil => intro st h; exact h
  | cons so rest ih =>
    intro st h
    exact ih (fuzzyStep c st so) (fuzzyStep_isSome c st so h)

theorem foldFuzzy_good (c : String) (scores : List (Option Int)) :
    ∀ st : ScanState, GoodState st → GoodState (foldFuzzy c st scores) := by
  induction scores with
  | nil => intro st h; exact h
  | cons so rest ih =>
    intro st h
    exact ih (fuzzyStep c st so) (fuzzyStep_good c st so h)

theorem applyFallback_score_le (input c : String) (st : ScanState) :
    st.bestScore ≤ (applyFallback input c st).bestScore := by
  simp only [applyFallback]
  split_ifs with h1 h2
  · exact le_of_lt h2.1
  · exact le_refl _
  · exact le_refl _

theorem applyFallback_isSome (input c : String) (st : ScanState)
    (h : st.bestMatch.isSome) : (applyFallback input c st).bestMatch.isSome := by
  simp only [applyFallback]
  split_ifs with h1 h2
  · rfl
  · exact h
  · exact h

theorem applyFallback_good (input c : String) (st : ScanState)
    (h : GoodState st) : GoodState (applyFallback input c st) := by
  simp only [applyFallback]
  split_ifs with h1 h2
  · exact ⟨Int.ofNat_nonneg _, fun _ => rfl⟩
  · exact h
  · exact h

theorem scanStep_score_le (mat : Matcher) (input : String) (st : ScanState) (c : String) :
    st.bestScore ≤ (scanStep mat input st c).bestScore := by
  simp only [scanStep]
  split_ifs with h1
  · exact le_trans (foldFuzzy_score_le c _ st) (applyFallback_score_le input c _)
  · exact foldFuzzy_score_le c _ st

theorem scanStep_isSome (mat : Matcher) (input : String) (st : ScanState) (c : String)
    (h : st.bestMatch.isSome) : (scanStep mat input st c).bestMatch.isSome := by
  simp only [scanStep]
  split_ifs with h1
  · exact applyFallback_isSome input c _ (foldFuzzy_isSome c _ st h)
  · exact foldFuzzy_isSome c _ st h

theorem scanStep_good (mat : Matcher) (input : String) (st : ScanState) (c : String)
    (h : GoodState st) : GoodState (scanStep mat input st c) := by
  simp only [scanStep]
  split_ifs with h1
  · exact applyFallback_good input c _ (foldFuzzy_good c _ st h)
  · exact foldFuzzy_good c _ st h

theorem foldScan_score_le (mat : Matcher) (input : String) (l : List String) :
    ∀ st : ScanState, st.bestScore ≤ (l.foldl (scanStep mat input) st).bestScore := by
  induction l with
  | nil => intro st; exact le_refl _
  | cons c rest ih =>
    intro st
    exact le_trans (scanStep_score_le mat input st c) (ih (scanStep mat input st c))

theorem foldScan_isSome (mat : Matcher) (input : String) (l : List String) :
    ∀ st : ScanState, st.bestMatch.isSome →
      (l.foldl (scanStep mat input) st).bestMatch.isSome := by
  induction l with
  | nil => intro st h; exact h
  | cons c rest ih =>
    intro st h
    exact ih (scanStep mat input st c) (scanStep_isSome mat input st c h)

theorem foldScan_good (mat : Matcher) (input : String) (l : List String) :
    ∀ st : ScanState, GoodState st → GoodState (l.foldl (scanStep mat input) st) := by
  induction l with
  | nil => intro st h; exact h
  | cons c rest ih =>
    intro st h
    exact ih (scanStep mat input st c) (scanStep_good mat input st c h)

theorem foldFuzzy_strong (c : String) (scores : List (Option Int)) :
    ∀ st : ScanState, GoodState st →
      (∃ so ∈ scores, strongScore so = true) →
      50 ≤ (foldFuzzy c st scores).bestScore ∧
        (foldFuzzy c st scores).bestMatch.isSome := by
  induction scores with
  | nil =>
    intro st _ h
    obtain ⟨so, hmem, _⟩ := h
    exact absurd hmem (List.not_mem_nil so)
  | cons so0 rest ih =>
    intro st hgood h
    obtain ⟨so, hmem, hstrong⟩ := h
    rcases List.mem_cons.mp hmem with heq | htail
    · cases heq
      cases so0 with
      | none => exact absurd hstrong (by simp [strongScore])
      | some v =>
        have hv : 50 ≤ v := by simpa [strongScore] using hstrong
        by_cases hgt : v > st.bestScore
        · have hset : fuzzyStep c st (some v) = ⟨some (c, v), v⟩ := by
            simp [fuzzyStep, if_pos hgt]
          constructor
            <;> rw [show foldFuzzy c st (some v :: rest) =
                  foldFuzzy c (fuzzyStep c st (some v)) rest from rfl, hset]
          · exact le_trans hv (foldFuzzy_score_le c rest _)
          · exact foldFuzzy_isSome c rest _ (by simp)
        · have hst : fuzzyStep c st (some v) = st := by
            simp [fuzzyStep, if_neg hgt]
          have hge : 50 ≤ st.bestScore := le_trans hv (not_lt.mp hgt)
          have hsome : st.bestMatch.isSome := hgood.2 (lt_of_lt_of_le (by norm_num) hge)
          constructor
            <;> rw [show foldFuzzy c st (some v :: rest) =
                  foldFuzzy c (fuzzyStep c st (some v)) rest from rfl, hst]
          · exact le_trans hge (foldFuzzy_score_le c rest st)
          · exact foldFuzzy_isSome c rest st hsome
    · exact ih (fuzzyStep c st so0) (fuzzyStep_good c st so0 hgood) ⟨so, htail, hstrong⟩

theorem foldFuzzy_weak (c : String) (scores : List (Option Int)) :
    ∀ st : ScanState, st.bestScore < 50 →
      (∀ so ∈ scores, strongScore so = false) →
      (foldFuzzy c st scores).bestScore < 50 := by
  induction scores with
  | nil => intro st h _; exact h
  | cons so0 rest ih =>
    intro st h hall
    have hst : (fuzzyStep c st so0).bestScore < 50 := by
      cases so0 with
      | none => exact h
      | some v =>
        have hv : v < 50 := by
          have := hall (some v) (List.mem_cons_self _ _)
          simpa [strongScore] using this
        by_cases hgt : v > st.bestScore
        · simpa [fuzzyStep, if_pos hgt] using hv
        · simpa [fuzzyStep, if_neg hgt] using h
    exact ih (fuzzyStep c st so0) hst (fun so hm => hall so (List.mem_cons_of_mem _ hm))

theorem fuzzyStep_inv (full : List String) (c : String) (st : ScanState) (so : Option Int)
    (hc : c ∈ full) (h : MatchInv full st) : MatchInv full (fuzzyStep c st so) := by
  cases so with
  | none => exact h
  | some s =>
    by_cases hgt : s > st.bestScore
    · simp only [fuzzyStep, if_pos hgt]
      intro c2 s2 heq
      simp only [Option.some.injEq, Prod.mk.injEq] at heq
      obtain ⟨rfl, rfl⟩ := heq
      exact ⟨hc, rfl⟩
    · simp only [fuzzyStep, if_neg hgt]
      exact h

theorem foldFuzzy_inv (full : List String) (c : String) (scores : List (Option Int))
    (hc : c ∈ full) :
    ∀ st : ScanState, MatchInv full st → MatchInv full (foldFuzzy c st scores) := by
  induction scores with
  | nil => intro st h; exact h
  | cons so rest ih =>
    intro st h
    exact ih (fuzzyStep c st so) (fuzzyStep_inv full c st so hc h)

theorem applyFallback_inv (full : List String) (input c : String) (st : ScanState)
    (hc : c ∈ full) (h : MatchInv full st) : MatchInv full (applyFallback input c st) := by
  simp only [applyFallback]
  split_ifs with h1 h2
  · intro c2 s2 heq
    simp only [Option.some.injEq, Prod.mk.injEq] at heq
    obtain ⟨rfl, rfl⟩ := heq
    exact ⟨hc, rfl⟩
  · exact h
  · exact h

theorem scanStep_inv (full : List String) (mat : Matcher) (input : String)
    (st : ScanState) (c : String) (hc : c ∈ full) (h : MatchInv full st) :
    MatchInv full (scanStep mat input st c) := by
  simp only [scanStep]
  split_ifs with h1
  · exact applyFallback_inv full input c _ hc (foldFuzzy_inv full c _ hc st h)
  · exact foldFuzzy_inv full c _ hc st h

theorem foldScan_inv (full : List String) (mat : Matcher) (input : String) :
    ∀ (l : List String) (st : ScanState), (∀ x ∈ l, x ∈ full) → MatchInv full st →
      MatchInv full (l.foldl (scanStep mat input) st) := by
  intro l
  induction l with
  | nil => intro st _ h; exact h
  | cons c rest ih =>
    intro st hsub h
    exact ih (scanStep mat input st c)
      (fun x hx => hsub x (List.mem_cons_of_mem c hx))
      (scanStep_inv full mat input st c (hsub c (List.mem_cons_self c rest)) h)

theorem matchInv_init (full : List String) : MatchInv full ⟨none, 0⟩ := by
  intro c s h
  exact Option.noConfusion h

/-- Core of the resolver's return invariant: a returned suggestion is one
of the scanned commands and its score exceeds the 60-point threshold. -/
theorem findSimilarCommand_mem (mat : Matcher) (input : String) (commands : List String)
    (c : String) (s : Int) (h : findSimilarCommand mat input commands = some (c, s)) :
    c ∈ commands ∧ 60 < s := by
  unfold findSimilarCommand at h
  have hinv : MatchInv commands (commands.foldl (scanStep mat input) ⟨none, 0⟩) :=
    foldScan_inv commands mat input commands ⟨none, 0⟩ (fun x hx => hx)
      (matchInv_init commands)
  by_cases h60 : (commands.foldl (scanStep mat input) ⟨none, 0⟩).bestScore > 60
  · rw [if_pos h60] at h
    obtain ⟨hc, hs⟩ := hinv c s h
    exact ⟨hc, hs ▸ h60⟩
  · rw [if_neg h60] at h
    exact Option.noConfusion h

theorem fallbackCond_eq_false (st : ScanState)
    (h1 : st.bestMatch.isSome) (h2 : 50 ≤ st.bestScore) : fallbackCond st = false := by
  unfold fallbackCond
  cases hm : st.bestMatch with
  | none => rw [hm] at h1; exact Bool.noConfusion h1
  | some p =>
    simp [hm, not_lt.mpr h2]

theorem fallbackCond_eq_true_of_lt (st : ScanState)
    (h : st.bestScore < 50) : fallbackCond st = true := by
  simp [fallbackCond, h]

/-- A candidate with at least one strong (≥ 50) strategy score leaves the
scan with a recorded match and a running best of at least 50. -/
theorem scanStep_strong (mat : Matcher) (input : String) (st : ScanState) (c : String)
    (hgood : GoodState st)
    (h : ∃ so ∈ candidateScores mat input c, strongScore so = true) :
    50 ≤ (scanStep mat input st c).bestScore ∧
      (scanStep mat input st c).bestMatch.isSome := by
  have hf := foldFuzzy_strong c (candidateScores mat input c) st hgood h
  have hcond : fallbackCond (afterFuzzy mat input st c) = false :=
    fallbackCond_eq_false _ hf.2 hf.1
  simp only [scanStep, hcond, Bool.false_eq_true, if_false]
  exact hf

theorem scanStateBefore_succ (mat : Matcher) (input : String) (commands : List String)
    (j : Nat) (hj : j < commands.length) :
    scanStateBefore mat input commands (j + 1) =
      scanStep mat input (scanStateBefore mat input commands j) (commands.getD j "") := by
  unfold scanStateBefore
  rw [List.take_succ, List.foldl_append]
  cases hx : commands[j]? with
  | none =>
    rw [List.getElem?_eq_none_iff] at hx
    omega
  | some x =>
    have hgd : commands.getD j "" = x := by
      rw [List.getD_eq_getElem?_getD, hx]; rfl
    rw [hgd]
    rfl

theorem scanStateBefore_ge (mat : Matcher) (input : String) (commands : List String)
    (i j : Nat) (hj : j ≤ i) :
    scanStateBefore mat input commands i =
      ((commands.take i).drop j).foldl (scanStep mat input)
        (scanStateBefore mat input commands j) := by
  unfold scanStateBefore
  conv_lhs => rw [← List.take_append_drop j (commands.take i)]
  rw [List.foldl_append, List.take_take, Nat.min_eq_left hj]

/-! ### Pass-through lemmas for the patch tables -/

theorem patchNpm_not_key (t : String) (h : t ∉ patchTableKeys "npm") :
    patchNpmCommand t = [t] := by
  have h2 : t ∉ (["i", "a", "r", "rm", "d", "dev", "b", "build", "s", "t", "up", "ls"] :
      List String) := h
  simp only [List.mem_cons, List.not_mem_nil, or_false, not_or] at h2
  obtain ⟨n1, n2, n3, n4, n5, n6, n7, n8, n9, n10, n11, n12⟩ := h2
  unfold patchNpmCommand
  rw [if_neg n1, if_neg n2, if_neg n3, if_neg n4, if_neg n5, if_neg n6, if_neg n7,
    if_neg n8, if_neg n9, if_neg n10, if_neg n11, if_neg n12]

theorem patchYarn_not_key (t : String) (h : t ∉ patchTableKeys "yarn") :
    patchYarnCommand t = [t] := by
  have h2 : t ∉ (["i", "a", "r", "rm", "d", "b", "s", "t", "up", "ls"] : List String) := h
  simp only [List.mem_cons, List.not_mem_nil, or_false, not_or] at h2
  obtain ⟨n1, n2, n3, n4, n5, n6, n7, n8, n9, n10⟩ := h2
  unfold patchYarnCommand
  rw [if_neg n1, if_neg n2, if_neg n3, if_neg n4, if_neg n5, if_neg n6, if_neg n7,
    if_neg n8, if_neg n9, if_neg n10]

theorem patchPnpm_not_key (t : String) (h : t ∉ patchTableKeys "pnpm") :
    patchPnpmCommand t = [t] := by
  have h2 : t ∉ (["i", "a", "r", "rm", "d", "dev", "b", "build", "s", "t", "up", "ls"] :
      List String) := h
  simp only [List.mem_cons, List.not_mem_nil, or_false, not_or] at h2
  obtain ⟨n1, n2, n3, n4, n5, n6, n7, n8, n9, n10, n11, n12⟩ := h2
  unfold patchPnpmCommand
  rw [if_neg n1, if_neg n2, if_neg n3, if_neg n4, if_neg n5, if_neg n6, if_neg n7,
    if_neg n8, if_neg n9, if_neg n10, if_neg n11, if_neg n12]

theorem patchBun_not_key (t : String) (h : t ∉ patchTableKeys "bun") :
    patchBunCommand t = [t] := by
  have h2 : t ∉ (["i", "a", "r", "rm", "d", "dev", "b", "build", "s", "t", "up", "ls"] :
      List String) := h
  simp only [List.mem_cons, List.not_mem_nil, or_false, not_or] at h2
  obtain ⟨n1, n2, n3, n4, n5, n6, n7, n8, n9, n10, n11, n12⟩ := h2
  unfold patchBunCommand
  rw [if_neg n1, if_neg n2, if_neg n3, if_neg n4, if_neg n5, if_neg n6, if_neg n7,
    if_neg n8, if_neg n9, if_neg n10, if_neg n11, if_neg n12]

/-! ### Claim theorems -/

/-- C2 (amended): the autocorrect step skips fuzzy resolution exactly for
tokens in the manager's `known_commands` list; any such token is returned
unchanged regardless of the filesystem and script set.  (The original
claim — that *every* §4.2 patch-table key is protected — fails: see the
counterexample, `'build'` is an npm patch-table key outside npm's
`known_commands` list.) -/
theorem known_command_skips_autocorrect (mat : Matcher) (fs : FS) (manager cmd : String)
    (dir : FsPath) (h : cmd ∈ knownCommands manager) :
    tryAutocorrectScript mat fs manager cmd dir = cmd := by
  unfold tryAutocorrectScript
  rw [if_pos h]

/-- C2 (counterexample): with npm as the manager, the patch-table key
`build` (mapped by §4.2 to `run build`, so a shorthand, not an identity)
is fuzzily resolved and replaced by the declared script `buildx`. -/
theorem shorthand_not_protected :
    tryAutocorrectScript noneMat buildxFS "npm" "build" [] = "buildx" ∧
    patchNpmCommand "build" = ["run", "build"] := by
  refine ⟨by decide, by decide⟩

/-- C2 witness: a token of npm's `known_commands` list passes through the
autocorrect step unchanged, even over a filesystem with similar scripts. -/
theorem known_command_skips_autocorrect_witness :
    tryAutocorrectScript noneMat buildxFS "npm" "i" [] = "i" :=
  known_command_skips_autocorrect noneMat buildxFS "npm" "i" [] (by decide)

/-- C5: exact membership pre-empts fuzzy resolution — whenever the
manifest reader succeeds and the typed token is already one of the
returned script names, the autocorrect step returns it unchanged, for
every matcher, manager and filesystem. -/
theorem exact_membership_preempts (mat : Matcher) (fs : FS) (manager cmd : String)
    (dir : FsPath) (scripts : List String)
    (h1 : readPackageJsonScripts fs dir = .ok scripts) (h2 : cmd ∈ scripts) :
    tryAutocorrectScript mat fs manager cmd dir = cmd := by
  unfold tryAutocorrectScript
  by_cases hk : cmd ∈ knownCommands manager
  · rw [if_pos hk]
  · rw [if_neg hk]
    simp only [autocorrectCommand, h1]
    rw [if_neg (List.ne_nil_of_mem h2), if_pos h2]

/-- C5 witness: the declared script `dev` is returned unchanged. -/
theorem exact_membership_preempts_witness :
    tryAutocorrectScript noneMat devFS "npm" "dev" [] = "dev" :=
  exact_membership_preempts noneMat devFS "npm" "dev" [] ["dev"] rfl (by decide)

/-- C8: for each of the four managers, `install` passes through the patch
table unchanged, every canonical verb (a leading token of the manager's
own table outputs) is a patch fixed point, and every token outside the
table's keys passes through as a single-element sequence. -/
theorem patch_table_passthrough :
    ∀ manager ∈ (["npm", "yarn", "pnpm", "bun"] : List String),
      applyPatch manager "install" = ["install"] ∧
      (∀ c ∈ canonicalVerbs manager, applyPatch manager c = [c]) ∧
      (∀ t, t ∉ patchTableKeys manager → applyPatch manager t = [t]) := by
  intro manager hm
  simp only [List.mem_cons, List.not_mem_nil, or_false] at hm
  rcases hm with rfl | rfl | rfl | rfl
  · refine ⟨by decide, by decide, ?_⟩
    intro t ht
    rw [show applyPatch "npm" t = patchNpmCommand t from rfl]
    exact patchNpm_not_key t ht
  · refine ⟨by decide, by decide, ?_⟩
    intro t ht
    rw [show applyPatch "yarn" t = patchYarnCommand t from rfl]
    exact patchYarn_not_key t ht
  · refine ⟨by decide, by decide, ?_⟩
    intro t ht
    rw [show applyPatch "pnpm" t = patchPnpmCommand t from rfl]
    exact patchPnpm_not_key t ht
  · refine ⟨by decide, by decide, ?_⟩
    intro t ht
    rw [show applyPatch "bun" t = patchBunCommand t from rfl]
    exact patchBun_not_key t ht

/-- C8 witness: `install` for npm, the canonical `dev` for yarn, and an
unknown token for npm all pass through unchanged. -/
theorem patch_table_passthrough_witness :
    applyPatch "npm" "install" = ["install"] ∧
    applyPatch "yarn" "dev" = ["dev"] ∧
    applyPatch "npm" "foo" = ["foo"] := by
  have hn := patch_table_passthrough "npm" (by decide)
  have hy := patch_table_passthrough "yarn" (by decide)
  exact ⟨hn.1, hy.2.1 "dev" (by decide), hn.2.2 "foo" (by decide)⟩

/-- C9: for every manager, matcher, filesystem and argument vector, all
tokens after the leading one are copied to the output unmodified, in
order, immediately after the (autocorrected and patched) leading token. -/
theorem tail_arguments_preserved (mat : Matcher) (fs : FS) (manager : String)
    (dir : FsPath) (first : String) (rest : List String) :
    patchCommands mat fs manager (first :: rest) dir =
      applyPatch manager (tryAutocorrectScript mat fs manager first dir) ++ rest := rfl

/-- C3 (amended): a manifest missing everywhere within the bounded walk,
or a found manifest whose parsed document lacks a `scripts` object, yields
`Ok` of the empty sequence; but an unreadable or unparsable manifest is
surfaced to the caller as an error (the `?` operators propagate it), which
the caller in turn swallows. -/
theorem manifest_reader_degenerate :
    (∀ (fs : FS) (dir : FsPath),
        (∀ k, k ≤ 5 → fs.manifest (ancestorAt dir k) = none) →
        readPackageJsonScripts fs dir = .ok []) ∧
    (∀ (fs : FS) (dir : FsPath) (v : JsonValue),
        fs.manifest dir = some (.json v) → jsonGet v "scripts" = none →
        readPackageJsonScripts fs dir = .ok []) ∧
    (∀ (fs : FS) (dir : FsPath) (v sv : JsonValue),
        fs.manifest dir = some (.json v) → jsonGet v "scripts" = some sv →
        asObject sv = none → readPackageJsonScripts fs dir = .ok []) ∧
    (∀ (fs : FS) (dir : FsPath),
        fs.manifest dir = some .parseError ∨ fs.manifest dir = some .readError →
        readPackageJsonScripts fs dir = .error ()) := by
  refine ⟨?_, ?_, ?_, ?_⟩
  · intro fs dir h
    exact readGo_none fs 6 dir (fun k hk => h k (by omega))
  · intro fs dir v h1 h2
    rw [readPackageJsonScripts_def]
    simp only [readGo_succ, h1, h2]
  · intro fs dir v sv h1 h2 h3
    rw [readPackageJsonScripts_def]
    simp only [readGo_succ, h1, h2, h3]
  · intro fs dir h
    rcases h with h | h <;>
      · rw [readPackageJsonScripts_def]
        simp only [readGo_succ, h]

/-- C3 (counterexample): a manifest that exists but fails to parse makes
`read_package_json_scripts` return an error to its caller, not the empty
sequence the claim promises. -/
theorem manifest_reader_error_leaks :
    readPackageJsonScripts parseErrFS [] = .error () := rfl

/-- C3 witness: no manifest anywhere in the walk yields `Ok []`. -/
theorem manifest_reader_degenerate_witness :
    readPackageJsonScripts emptyFS ["a"] = .ok [] :=
  manifest_reader_degenerate.1 emptyFS ["a"] (fun _ _ => rfl)

/-- C6: if the first lock-file marker the walk can see sits exactly `N`
ancestors above the start directory, detection finds it iff `N ≤ 5` (six
checks: the start plus five ancestors); at `N ≥ 6` it returns nothing.
The walk stops early at the root because the root has no parent. -/
theorem prober_bounded_walk (fs : FS) (dir : FsPath) (N : Nat) (m : String)
    (hlen : N ≤ dir.length)
    (hnone : ∀ k, k < N → checkDirectoryForPackageManager fs (ancestorAt dir k) = none)
    (hfound : checkDirectoryForPackageManager fs (ancestorAt dir N) = some m) :
    detectPackageManager fs dir = if N ≤ 5 then some m else none := by
  by_cases h5 : N ≤ 5
  · rw [if_pos h5]
    exact detectGo_found fs m N 6 dir (by omega) hlen hnone hfound
  · rw [if_neg h5]
    exact detectGo_none fs 6 dir (fun k hk => hnone k (by omega))

/-- C6 witness: a `yarn.lock` one ancestor above the start directory is
found. -/
theorem prober_bounded_walk_witness :
    detectPackageManager yarnAtAFS ["a", "b"] = some "yarn" := by
  have h := prober_bounded_walk yarnAtAFS ["a", "b"] 1 "yarn" (by decide)
    (fun k hk => by
      have hk0 : k = 0 := by omega
      subst hk0
      decide)
    (by decide)
  simpa using h

/-- C7: a failed directory listing is treated exactly like an empty
(marker-free) directory: the check at that level yields nothing, and the
whole detection behaves identically to a filesystem where that directory
lists no entries — probing continues upward, and no error is ever
returned (the result type carries none). -/
theorem prober_listing_failure (fs : FS) (d : FsPath) (h : fs.listing d = none) :
    checkDirectoryForPackageManager fs d = none ∧
    ∀ dir, detectPackageManager fs dir =
      detectPackageManager
        { listing := fun p => if p = d then some [] else fs.listing p,
          manifest := fs.manifest } dir := by
  constructor
  · unfold checkDirectoryForPackageManager
    rw [h]
  · intro dir
    exact detectGo_congr fs
      { listing := fun p => if p = d then some [] else fs.listing p,
        manifest := fs.manifest }
      (fun p => by
        unfold checkDirectoryForPackageManager
        dsimp only
        by_cases hp : p = d
        · subst hp
          rw [h, if_pos rfl]
          rfl
        · rw [if_neg hp]) 6 dir

/-- C7 witness: a filesystem whose listings all fail detects nothing at
any level, same as one with empty directories. -/
theorem prober_listing_failure_witness :
    checkDirectoryForPackageManager emptyFS [] = none :=
  (prober_listing_failure emptyFS [] rfl).1

/-- C10: whatever the score oracle does, a suggestion returned by
`find_similar_command` is one of the scanned candidate commands with a
score strictly above 60, and consequently the token the autocorrect step
substitutes is either the typed token itself or a script name the
manifest reader actually returned. -/
theorem resolver_returns_declared (mat : Matcher) :
    (∀ (input : String) (commands : List String) (c : String) (s : Int),
        findSimilarCommand mat input commands = some (c, s) → c ∈ commands ∧ 60 < s) ∧
    (∀ (fs : FS) (dir : FsPath) (cmd : String),
        autocorrectCommand mat fs cmd dir = cmd ∨
        ∃ scripts, readPackageJsonScripts fs dir = .ok scripts ∧
          autocorrectCommand mat fs cmd dir ∈ scripts) := by
  constructor
  · intro input commands c s h
    exact findSimilarCommand_mem mat input commands c s h
  · intro fs dir cmd
    unfold autocorrectCommand
    cases hr : readPackageJsonScripts fs dir with
    | error e => left; rfl
    | ok scripts =>
      dsimp only
      by_cases hemp : scripts = []
      · rw [if_pos hemp]; left; rfl
      · rw [if_neg hemp]
        by_cases hmem : cmd ∈ scripts
        · rw [if_pos hmem]; left; rfl
        · rw [if_neg hmem]
          cases hf : findSimilarCommand mat cmd scripts with
          | none => left; rfl
          | some p =>
            obtain ⟨sug, sc⟩ := p
            right
            exact ⟨scripts, rfl,
              (findSimilarCommand_mem mat cmd scripts sug sc hf).1⟩

/-- C10 witness: the fallback-driven suggestion `buildx` for the input
`build` is a member of the scanned set with score above 60. -/
theorem resolver_returns_declared_witness :
    "buildx" ∈ (["buildx"] : List String) ∧ (60 : Int) < 83 :=
  (resolver_returns_declared noneMat).1 "build" ["buildx"] "buildx" 83 (by decide)

/-- C1 (counterexample): whether the edit-distance fallback runs for a
candidate does NOT depend only on that candidate's own fuzzy scores.
With the oracle scoring candidate `a` at 80, candidate `b` has no fuzzy
score at all (so the per-candidate reading demands the fallback), yet the
fallback guard — which reads the running best across the whole scan — is
false for `b`. -/
theorem fallback_gate_not_per_candidate :
    ¬ (∀ (mat : Matcher) (input : String) (commands : List String) (i : Nat),
        i < commands.length →
        (fallbackRuns mat input commands i = true ↔
          ∀ so ∈ candidateScores mat input (commands.getD i ""), strongScore so = false)) := by
  intro h
  have h1 := (h strongAMat "x" ["a", "b"] 1 (by decide)).mpr (by decide)
  exact absurd h1 (by decide)

/-- C1 (amended): the fallback guard reads the running maximum over the
whole scan so far, not the current candidate alone.  For the first
candidate the two readings agree: the fallback runs iff none of its own
six strategy scores reaches 50.  For a later candidate, any earlier
candidate with a strong (≥ 50) fuzzy score suppresses the fallback. -/
theorem fallback_gate_amended (mat : Matcher) (input : String) (commands : List String) :
    (∀ c0 rest, commands = c0 :: rest →
        (fallbackRuns mat input commands 0 = true ↔
          ∀ so ∈ candidateScores mat input c0, strongScore so = false)) ∧
    (∀ i j, j < i → i < commands.length →
        (∃ so ∈ candidateScores mat input (commands.getD j ""), strongScore so = true) →
        fallbackRuns mat input commands i = false) := by
  constructor
  · intro c0 rest hc
    subst hc
    have hrfl : fallbackRuns mat input (c0 :: rest) 0 =
        fallbackCond (afterFuzzy mat input ⟨none, 0⟩ c0) := rfl
    constructor
    · intro ht so hso
      by_contra hfalse
      have hstrong : strongScore so = true := by
        cases hss : strongScore so
        · exact absurd hss hfalse
        · rfl
      have hf := foldFuzzy_strong c0 (candidateScores mat input c0) ⟨none, 0⟩
        goodState_init ⟨so, hso, hstrong⟩
      have hcond : fallbackCond (afterFuzzy mat input ⟨none, 0⟩ c0) = false :=
        fallbackCond_eq_false _ hf.2 hf.1
      rw [hrfl, hcond] at ht
      exact Bool.noConfusion ht
    · intro hall
      rw [hrfl]
      exact fallbackCond_eq_true_of_lt _
        (foldFuzzy_weak c0 (candidateScores mat input c0) ⟨none, 0⟩ (by norm_num) hall)
  · intro i j hji hi hstrong
    have hjlen : j < commands.length := lt_trans hji hi
    have hgoodj : GoodState (scanStateBefore mat input commands j) :=
      foldScan_good mat input (commands.take j) ⟨none, 0⟩ goodState_init
    have hstep := scanStep_strong mat input (scanStateBefore mat input commands j)
      (commands.getD j "") hgoodj hstrong
    rw [← scanStateBefore_succ mat input commands j hjlen] at hstep
    have hdec := scanStateBefore_ge mat input commands i (j + 1) (by omega)
    have h50i : 50 ≤ (scanStateBefore mat input commands i).bestScore := by
      rw [hdec]
      exact le_trans hstep.1 (foldScan_score_le mat input _ _)
    have hsomei : (scanStateBefore mat input commands i).bestMatch.isSome := by
      rw [hdec]
      exact foldScan_isSome mat input _ _ hstep.2
    have h50f : 50 ≤ (afterFuzzy mat input (scanStateBefore mat input commands i)
        (commands.getD i "")).bestScore :=
      le_trans h50i (foldFuzzy_score_le _ _ _)
    have hsomef : (afterFuzzy mat input (scanStateBefore mat input commands i)
        (commands.getD i "")).bestMatch.isSome :=
      foldFuzzy_isSome _ _ _ hsomei
    exact fallbackCond_eq_false _ hsomef h50f

/-- C1 witness: in the counterexample scan, candidate 0's strong score
suppresses the fallback for candidate 1. -/
theorem fallback_gate_amended_witness :
    fallbackRuns strongAMat "x" ["a", "b"] 1 = false :=
  (fallback_gate_amended strongAMat "x" ["a", "b"]).2 1 0 (by decide) (by decide)
    ⟨some 80, by decide, by decide⟩

/-- C4 (code bug): on non-ASCII input the source's `levenshtein_distance`
is not the Levenshtein edit distance: it sizes the DP matrix and reads
the answer cell by byte lengths while filling by chars, so for the
normalized strings `é` and `a` (both fixed points of normalization) it
returns the never-written cell 0, where the Levenshtein distance is 1 —
making the fallback treat the pair as identical (similarity 100%). -/
theorem levenshtein_byte_char_mismatch :
    normalizeToken "é" = "é" ∧ normalizeToken "a" = "a" ∧
    levenshteinDistance "é" "a" = 0 ∧ specLevenshtein "é".data "a".data = 1 :=
  ⟨by decide, by decide, by decide, by decide⟩
